import Mathlib

/-!
Verification of the OCR post-processing pipeline in `main.py` ("OCR Scan
Vision API").  The pipeline turns detector polygons into clamped bounding
boxes (`_detect_polys_bboxes`), crops and recognizes each region
(`_recognize_rois`), filters by confidence, and assembles the HTTP
responses (`paddle_ocr_image`, `paddle_ocr_pdf`, `base_ocr_image`).

Shallow embedding conventions:
* pixel coordinates are `Int` (the code uses numpy `int32` and Python ints);
* confidences are `Rat` (the code compares Python floats with `>=`);
* the recognition oracle (`paddle_recognizer.predict` on a cropped region)
  is an abstract function from the clamped bounding box of the region to a
  `RecOutcome`: the invocation either raises (`failure`) or yields a lazy
  sequence of results, modelled by the list of results it would produce;
* the JSON response dictionaries are association lists from field name to
  `RespVal`, so that presence/absence of a field is expressible.
-/

/-- A 2-D integer point of a detector polygon. -/
structure Point where
  x : Int
  y : Int
deriving DecidableEq, Repr

/-- An axis-aligned rectangle `(x1, y1, x2, y2)`. -/
structure BBox where
  x1 : Int
  y1 : Int
  x2 : Int
  y2 : Int
deriving DecidableEq, Repr

/-- `cv2.boundingRect` on an integer point array: `x`/`y` are the minimal
coordinates and `w`/`h` are `max - min + 1` (the rectangle of covered
pixels).  Returns `(x, y, w, h)`. -/
def boundingRect (poly : List Point) : Int × Int × Int × Int :=
  match poly with
  | [] => (0, 0, 0, 0)
  | p :: ps =>
    let minX := ps.foldl (fun a q => min a q.x) p.x
    let minY := ps.foldl (fun a q => min a q.y) p.y
    let maxX := ps.foldl (fun a q => max a q.x) p.x
    let maxY := ps.foldl (fun a q => max a q.y) p.y
    (minX, minY, maxX - minX + 1, maxY - minY + 1)

/-- One element of the list built by `_detect_polys_bboxes`: the raw
polygon together with its clamped bounding box. -/
structure DetItem where
  polygon : List Point
  bbox : BBox
deriving DecidableEq, Repr

/-- `_detect_polys_bboxes` (main.py:91-129).  The detector's output is a
list of result dicts, each contributing its `dt_polys` list (a result
without boxes is skipped, which coincides with contributing no items).
For each polygon the minimal enclosing rectangle is computed with
`cv2.boundingRect` and clamped: left/top to `max(·,0)`, right/bottom to
`min(·, width)` / `min(·, height)`. -/
def detect_polys_bboxes (results : List (List (List Point))) (wImg hImg : Int) :
    List DetItem :=
  results.flatMap fun boxes =>
    boxes.map fun poly =>
      let r := boundingRect poly
      let x := r.1
      let y := r.2.1
      let w := r.2.2.1
      let h := r.2.2.2
      { polygon := poly
        bbox := { x1 := max x 0, y1 := max y 0
                  x2 := min (x + w) wImg, y2 := min (y + h) hImg } }

/-- One recognition result of the oracle: `rec_text` and `rec_score`. -/
structure RecognitionResult where
  text : String
  score : Rat
deriving DecidableEq, Repr

/-- Outcome of invoking `paddle_recognizer.predict` on one cropped region:
either the invocation raises (`failure`), or it returns a generator,
modelled by the list of results it would lazily produce. -/
inductive RecOutcome where
  | failure
  | results (recs : List RecognitionResult)
deriving DecidableEq, Repr

/-- The recognition adapter for one region (main.py:153-165): take the
first element of the generator; an empty generator (`StopIteration`) or a
raised exception degrades to text `""` and score `0.0`. -/
def recognizeRoi (o : RecOutcome) : RecognitionResult :=
  match o with
  | .failure => { text := "", score := 0 }
  | .results [] => { text := "", score := 0 }
  | .results (r :: _) => r

/-- The oracle for one page: from the clamped bounding box of a region
(which determines the cropped sub-image of the fixed page image) to the
outcome of the recognizer invocation. -/
def RecOracle := BBox → RecOutcome

/-- One item of the final output of `_recognize_rois`. -/
structure OcrItem where
  boxId : Nat
  text : String
  confidence : Rat
  bbox : BBox
  polygon : List Point
  page : Option Nat
deriving DecidableEq, Repr

/-- The re-clamping of a candidate bbox at the top of the per-region loop
(main.py:143-147): `x1 = max(0, min(x1, w_img - 1))`,
`x2 = max(0, min(x2, w_img))`, likewise for `y`. -/
def clampBox (wImg hImg : Int) (b : BBox) : BBox :=
  { x1 := max 0 (min b.x1 (wImg - 1))
    y1 := max 0 (min b.y1 (hImg - 1))
    x2 := max 0 (min b.x2 wImg)
    y2 := max 0 (min b.y2 hImg) }

/-- One iteration of the loop in `_recognize_rois` (main.py:141-173) for
the region at 1-based index `i`: clamp the box; skip it when
`x2 <= x1 or y2 <= y1` or the crop has zero pixels (`roi.size == 0`, the
numpy array has `(y2-y1)*(x2-x1)*3` entries); otherwise recognize and keep
the region iff `score >= min_conf`. -/
def processRegion (oracle : RecOracle) (wImg hImg : Int) (minConf : Rat)
    (i : Nat) (det : DetItem) : Option OcrItem :=
  let b := clampBox wImg hImg det.bbox
  if b.x2 ≤ b.x1 ∨ b.y2 ≤ b.y1 then none
  else if (b.y2 - b.y1) * (b.x2 - b.x1) * 3 = 0 then none
  else
    let r := recognizeRoi (oracle b)
    if minConf ≤ r.score then
      some { boxId := i, text := r.text, confidence := r.score
             bbox := b, polygon := det.polygon, page := none }
    else none

/-- The loop of `_recognize_rois`, with the running 1-based index of
`enumerate(rois_info, start=1)` made explicit. -/
def recognize_rois_aux (oracle : RecOracle) (wImg hImg : Int) (minConf : Rat) :
    Nat → List DetItem → List OcrItem
  | _, [] => []
  | i, det :: rest =>
    match processRegion oracle wImg hImg minConf i det with
    | some it => it :: recognize_rois_aux oracle wImg hImg minConf (i + 1) rest
    | none => recognize_rois_aux oracle wImg hImg minConf (i + 1) rest

/-- `_recognize_rois` (main.py:132-174). -/
def recognize_rois (oracle : RecOracle) (wImg hImg : Int)
    (roisInfo : List DetItem) (minConf : Rat) : List OcrItem :=
  recognize_rois_aux oracle wImg hImg minConf 1 roisInfo

/-- The text assembly shared by all endpoints:
`"\n".join([it["text"] for it in items if it.get("text")])` — a non-empty
`text` value is truthy, an empty one falsy. -/
def joinTexts (items : List OcrItem) : String :=
  String.intercalate "\n" ((items.filter fun it => it.text ≠ "").map fun it => it.text)

/-- Default of the `PADDLE_DET_MODEL` environment variable. -/
def PADDLE_DET_MODEL : String := "PP-OCRv5_server_det"

/-- Default of the `PADDLE_REC_MODEL` environment variable. -/
def PADDLE_REC_MODEL : String := "arabic_PP-OCRv5_mobile_rec"

/-- A value of one field of a JSON response dictionary. -/
inductive RespVal where
  | vInt (n : Int)
  | vStr (s : String)
  | vItems (l : List OcrItem)
  | vNull
deriving DecidableEq, Repr

/-- The response dictionary of `paddle_ocr_image` (main.py:198-205), as an
association list in the order the fields appear in the source. -/
def paddle_ocr_image_response (detResults : List (List (List Point)))
    (oracle : RecOracle) (wImg hImg : Int) (minConf : Rat) :
    List (String × RespVal) :=
  let detItems := detect_polys_bboxes detResults wImg hImg
  let recItems := recognize_rois oracle wImg hImg detItems minConf
  [("pages", .vInt 1), ("dpi", .vNull),
   ("det_model", .vStr PADDLE_DET_MODEL), ("rec_model", .vStr PADDLE_REC_MODEL),
   ("items", .vItems recItems), ("text", .vStr (joinTexts recItems))]

/-- The response dictionary of `base_ocr_image` (`POST /ocr`,
main.py:247-261): only a `text` field, with `min_conf` fixed to `0.0`. -/
def base_ocr_image_response (detResults : List (List (List Point)))
    (oracle : RecOracle) (wImg hImg : Int) : List (String × RespVal) :=
  let detItems := detect_polys_bboxes detResults wImg hImg
  let recItems := recognize_rois oracle wImg hImg detItems 0
  [("text", .vStr (joinTexts recItems))]

/-- One rasterized page of a PDF: the detector results for that page, the
page dimensions, and the recognition oracle restricted to that page's
image. -/
structure PageData where
  detResults : List (List (List Point))
  wImg : Int
  hImg : Int
  oracle : RecOracle

/-- The full single-page pipeline: detection followed by recognition. -/
def processPage (pd : PageData) (minConf : Rat) : List OcrItem :=
  recognize_rois pd.oracle pd.wImg pd.hImg
    (detect_polys_bboxes pd.detResults pd.wImg pd.hImg) minConf

/-- `it["page"] = idx` for every item of one page (main.py:232-233). -/
def stampPage (idx : Nat) (items : List OcrItem) : List OcrItem :=
  items.map fun it => { it with page := some idx }

/-- The `all_items` accumulation of `paddle_ocr_pdf` (main.py:226-234),
with the 1-based page index of `enumerate(pages, start=1)` explicit. -/
def pdf_all_items_aux (minConf : Rat) : Nat → List PageData → List OcrItem
  | _, [] => []
  | idx, pd :: rest =>
    stampPage idx (processPage pd minConf) ++ pdf_all_items_aux minConf (idx + 1) rest

/-- `all_items` of `paddle_ocr_pdf`. -/
def pdf_all_items (pagesD : List PageData) (minConf : Rat) : List OcrItem :=
  pdf_all_items_aux minConf 1 pagesD

/-- The `text` field of the `paddle_ocr_pdf` response (main.py:242):
`"\n".join([it["text"] for it in all_items if it.get("text")])`. -/
def paddle_ocr_pdf_text (pagesD : List PageData) (minConf : Rat) : String :=
  joinTexts (pdf_all_items pagesD minConf)

/-- The response dictionary of `paddle_ocr_pdf` (main.py:236-243). -/
def paddle_ocr_pdf_response (pagesD : List PageData) (dpi : Int) (minConf : Rat) :
    List (String × RespVal) :=
  [("pages", .vInt pagesD.length), ("dpi", .vInt dpi),
   ("det_model", .vStr PADDLE_DET_MODEL), ("rec_model", .vStr PADDLE_REC_MODEL),
   ("items", .vItems (pdf_all_items pagesD minConf)),
   ("text", .vStr (paddle_ocr_pdf_text pagesD minConf))]

/-- Modelled from the spec: the per-page text of §4.7 ("joining item texts
(skipping empty strings) with newline, in boxId order").  The code never
materializes a per-page text; this definition follows the spec's words and
is compared with what the code computes. -/
def specPageText (pd : PageData) (minConf : Rat) : String :=
  String.intercalate "\n"
    (((processPage pd minConf).map fun it => it.text).filter fun t => t ≠ "")

/-- The two recoverable per-region anomalies of the recognition adapter:
the invocation raises, or the generator yields nothing. -/
def recFails (o : RecOutcome) : Prop := o = .failure ∨ o = .results []

/-- The non-empty texts of an item list, in order: the list joined by
`joinTexts`. -/
def ntexts (items : List OcrItem) : List String :=
  (items.map fun it => it.text).filter fun t => t ≠ ""

/-- Modelled from the spec: a character of the tashkeel diacritic range
U+064B–U+065F (§4.5 step 9), which the spec says never survives
normalization.  The code has no normalizer; this predicate states the
spec's property. -/
def specTashkeel (c : Char) : Bool := 0x64B ≤ c.toNat && c.toNat ≤ 0x65F

/-- Modelled from the spec: a character of {Arabic Unicode block U+0600–U+06FF,
digits, whitespace}, the only characters the spec allows in normalized
text (§4.5 step 8). -/
def specAllowedChar (c : Char) : Bool :=
  (0x600 ≤ c.toNat && c.toNat ≤ 0x6FF) || c.isDigit || c.isWhitespace

/-! Concrete fixtures used by the counterexamples and witnesses below. -/

/-- An axis-aligned square polygon with the given corner coordinates. -/
def sqPoly (x1 y1 x2 y2 : Int) : List Point :=
  [⟨x1, y1⟩, ⟨x2, y1⟩, ⟨x2, y2⟩, ⟨x1, y2⟩]

/-- The rational 1/2, in normal form so that kernel reduction works. -/
def qHalf : Rat := ⟨1, 2, by decide, by decide⟩

/-- The rational 9/10, in normal form so that kernel reduction works. -/
def qNineTenths : Rat := ⟨9, 10, by decide, by decide⟩

/-- The rational 1/5, in normal form so that kernel reduction works. -/
def qFifth : Rat := ⟨1, 5, by decide, by decide⟩

/-- Two detected regions on one line: boxes `(5,10,20,20)` and
`(50,10,60,20)`, in that detection order. -/
def roisAB : List DetItem :=
  [⟨sqPoly 5 10 19 19, ⟨5, 10, 20, 20⟩⟩, ⟨sqPoly 50 10 59 19, ⟨50, 10, 60, 20⟩⟩]

/-- An oracle recognizing the left region of `roisAB` with confidence 0.2
and the right one with confidence 0.9. -/
def oracleAB : RecOracle := fun b =>
  if b.x1 = 5 then .results [{ text := "left", score := qFifth }]
  else .results [{ text := "right", score := qNineTenths }]

/-- The polygon of the single region of scenario 2. -/
def polyC3 : List Point := sqPoly 0 0 9 9

/-- An oracle returning raw text `"ا لكتاب"` (definite-article split) with
confidence 0.9 for every region. -/
def oracleC3 : RecOracle := fun _ => .results [{ text := "ا لكتاب", score := qNineTenths }]

/-- A single detected region with bbox `(0,0,10,10)`. -/
def roisC3 : List DetItem := [⟨polyC3, ⟨0, 0, 10, 10⟩⟩]

/-- An oracle returning text with a Latin letter and a tashkeel mark
(U+064B) with confidence 1. -/
def oracleC6 : RecOracle := fun _ => .results [{ text := "Xبً", score := 1 }]

/-- A single detected region with bbox `(0,0,10,10)`. -/
def roisC6 : List DetItem := [⟨sqPoly 0 0 9 9, ⟨0, 0, 10, 10⟩⟩]

/-- Page with one region recognized as `"a"`. -/
def pageA : PageData :=
  ⟨[[sqPoly 0 0 9 9]], 100, 100, fun _ => .results [{ text := "a", score := 1 }]⟩

/-- Page with one region recognized as `"b"`. -/
def pageB : PageData :=
  ⟨[[sqPoly 0 0 9 9]], 100, 100, fun _ => .results [{ text := "b", score := 1 }]⟩

/-- The single item the pipeline emits for `roisAB`/`oracleAB` at
`min_conf = 0.5`. -/
def itemAB : OcrItem :=
  { boxId := 2, text := "right", confidence := qNineTenths,
    bbox := ⟨50, 10, 60, 20⟩, polygon := sqPoly 50 10 59 19, page := none }

/-- The item obtained from the detector output `[[sqPoly 5 10 19 19]]`
under `oracleC3`. -/
def itemC3det : OcrItem :=
  { boxId := 1, text := "ا لكتاب", confidence := qNineTenths,
    bbox := ⟨5, 10, 20, 20⟩, polygon := sqPoly 5 10 19 19, page := none }

/-- The item the pipeline emits for `roisC6`/`oracleC6` at `min_conf = 0`. -/
def itemC6 : OcrItem :=
  { boxId := 1, text := "Xبً", confidence := 1,
    bbox := ⟨0, 0, 10, 10⟩, polygon := sqPoly 0 0 9 9, page := none }

/-- An oracle whose invocation always raises. -/
def oracleFail : RecOracle := fun _ => .failure

/-- A single well-formed detected region. -/
def detF : DetItem := ⟨sqPoly 0 0 9 9, ⟨0, 0, 10, 10⟩⟩

/-- An oracle returning empty text with confidence 0.5. -/
def oracleEmptyText : RecOracle := fun _ => .results [{ text := "", score := qHalf }]

/-! Helper lemmas about the per-region loop. -/

theorem processRegion_some (oracle : RecOracle) (wImg hImg : Int) (minConf : Rat)
    (i : Nat) (det : DetItem) (it : OcrItem)
    (h : processRegion oracle wImg hImg minConf i det = some it) :
    it.boxId = i ∧ it.bbox = clampBox wImg hImg det.bbox ∧
    it.bbox.x1 < it.bbox.x2 ∧ it.bbox.y1 < it.bbox.y2 ∧
    it.text = (recognizeRoi (oracle it.bbox)).text ∧
    it.confidence = (recognizeRoi (oracle it.bbox)).score ∧
    minConf ≤ it.confidence ∧ it.polygon = det.polygon ∧ it.page = none := by
  simp only [processRegion] at h
  split_ifs at h with h1 h2 h3
  cases h
  push_neg at h1
  simp_all

theorem mem_recognize_rois_aux (oracle : RecOracle) (wImg hImg : Int) (minConf : Rat)
    (rois : List DetItem) (i : Nat) (it : OcrItem) :
    it ∈ recognize_rois_aux oracle wImg hImg minConf i rois ↔
    ∃ k, ∃ hk : k < rois.length,
      processRegion oracle wImg hImg minConf (i + k) (rois.get ⟨k, hk⟩) = some it := by
  induction rois generalizing i with
  | nil => simp [recognize_rois_aux]
  | cons det rest ih =>
    unfold recognize_rois_aux
    cases hp : processRegion oracle wImg hImg minConf i det with
    | some o =>
      simp only [List.mem_cons, ih (i + 1)]
      constructor
      · rintro (rfl | ⟨k, hk, hpk⟩)
        · exact ⟨0, by simp, by simpa using hp⟩
        · refine ⟨k + 1, by simpa using hk, ?_⟩
          rw [show i + (k + 1) = (i + 1) + k by omega]
          simpa using hpk
      · rintro ⟨k, hk, hpk⟩
        match k with
        | 0 =>
          left
          have hg : (det :: rest).get ⟨0, hk⟩ = det := rfl
          rw [hg, Nat.add_zero, hp] at hpk
          exact (Option.some_injective _ hpk).symm
        | k + 1 =>
          right
          have hg : (det :: rest).get ⟨k + 1, hk⟩ = rest.get ⟨k, by simpa using hk⟩ := rfl
          rw [hg] at hpk
          refine ⟨k, by simpa using hk, ?_⟩
          rw [show (i + 1) + k = i + (k + 1) by omega]
          exact hpk
    | none =>
      rw [ih (i + 1)]
      constructor
      · rintro ⟨k, hk, hpk⟩
        refine ⟨k + 1, by simpa using hk, ?_⟩
        rw [show i + (k + 1) = (i + 1) + k by omega]
        simpa using hpk
      · rintro ⟨k, hk, hpk⟩
        match k with
        | 0 =>
          have hg : (det :: rest).get ⟨0, hk⟩ = det := rfl
          rw [hg, Nat.add_zero, hp] at hpk
          cases hpk
        | k + 1 =>
          have hg : (det :: rest).get ⟨k + 1, hk⟩ = rest.get ⟨k, by simpa using hk⟩ := rfl
          rw [hg] at hpk
          refine ⟨k, by simpa using hk, ?_⟩
          rw [show (i + 1) + k = i + (k + 1) by omega]
          exact hpk

theorem clampBox_bounds (wImg hImg : Int) (b : BBox)
    (hx : (clampBox wImg hImg b).x1 < (clampBox wImg hImg b).x2)
    (hy : (clampBox wImg hImg b).y1 < (clampBox wImg hImg b).y2) :
    0 ≤ (clampBox wImg hImg b).x1 ∧ (clampBox wImg hImg b).x2 ≤ wImg ∧
    0 ≤ (clampBox wImg hImg b).y1 ∧ (clampBox wImg hImg b).y2 ≤ hImg := by
  simp only [clampBox, max_def, min_def] at *
  split_ifs at * <;> omega

theorem recognize_rois_aux_boxId_lb (oracle : RecOracle) (wImg hImg : Int)
    (minConf : Rat) (rois : List DetItem) (i : Nat) (it : OcrItem)
    (h : it ∈ recognize_rois_aux oracle wImg hImg minConf i rois) :
    i ≤ it.boxId := by
  obtain ⟨k, hk, hpk⟩ := (mem_recognize_rois_aux oracle wImg hImg minConf rois i it).mp h
  have := (processRegion_some oracle wImg hImg minConf (i + k) _ it hpk).1
  omega

theorem recognize_rois_aux_pairwise (oracle : RecOracle) (wImg hImg : Int)
    (minConf : Rat) (rois : List DetItem) (i : Nat) :
    (recognize_rois_aux oracle wImg hImg minConf i rois).Pairwise
      (fun a b => a.boxId < b.boxId) := by
  induction rois generalizing i with
  | nil => simp [recognize_rois_aux]
  | cons det rest ih =>
    unfold recognize_rois_aux
    cases hp : processRegion oracle wImg hImg minConf i det with
    | some o =>
      refine List.Pairwise.cons ?_ (ih (i + 1))
      intro b hb
      have h1 := (processRegion_some oracle wImg hImg minConf i det o hp).1
      have h2 := recognize_rois_aux_boxId_lb oracle wImg hImg minConf rest (i + 1) b hb
      omega
    | none => exact ih (i + 1)

theorem joinTexts_filter (items : List OcrItem) :
    joinTexts items = joinTexts (items.filter fun it => it.text ≠ "") := by
  simp [joinTexts, List.filter_filter]

/-! Helper lemmas about `String.intercalate`. -/

theorem intercalate_go_append (s x y : String) (l : List String) :
    String.intercalate.go (x ++ y) s l = x ++ String.intercalate.go y s l := by
  induction l generalizing y with
  | nil => rfl
  | cons a as ih =>
    show String.intercalate.go (x ++ y ++ s ++ a) s as =
      x ++ String.intercalate.go (y ++ s ++ a) s as
    rw [show x ++ y ++ s ++ a = x ++ (y ++ s ++ a) by
      rw [String.append_assoc, String.append_assoc, String.append_assoc]]
    exact ih (y ++ s ++ a)

theorem intercalate_cons_cons (s a b : String) (t : List String) :
    String.intercalate s (a :: b :: t) = a ++ s ++ String.intercalate s (b :: t) := by
  show String.intercalate.go (a ++ s ++ b) s t = a ++ s ++ String.intercalate.go b s t
  exact intercalate_go_append s (a ++ s) b t

theorem append_ne_empty_left (x y : String) (hx : x ≠ "") : x ++ y ≠ "" := by
  intro h
  apply hx
  have := congrArg String.length h
  rw [String.length_append] at this
  have hx0 : x.length = 0 := by
    simp at this
    omega
  cases x with
  | mk d =>
    cases d with
    | nil => rfl
    | cons c cs => simp [String.length, List.length] at hx0

theorem intercalate_ne_empty (l : List String) (hl : l ≠ [])
    (h : ∀ x ∈ l, x ≠ "") : String.intercalate "\n" l ≠ "" := by
  cases l with
  | nil => contradiction
  | cons a t =>
    cases t with
    | nil => exact h a (by simp)
    | cons b u =>
      rw [intercalate_cons_cons]
      rw [String.append_assoc]
      exact append_ne_empty_left _ _ (h a (by simp))

theorem intercalate_append_strings (s : String) (l1 l2 : List String)
    (h1 : l1 ≠ []) (h2 : l2 ≠ []) :
    String.intercalate s (l1 ++ l2) =
      String.intercalate s l1 ++ s ++ String.intercalate s l2 := by
  induction l1 with
  | nil => contradiction
  | cons a t ih =>
    cases t with
    | nil =>
      cases l2 with
      | nil => contradiction
      | cons b u =>
        simp only [List.cons_append, List.nil_append]
        rw [intercalate_cons_cons]
        rfl
    | cons c u =>
      have e1 : String.intercalate s ((a :: c :: u) ++ l2) =
          a ++ s ++ String.intercalate s ((c :: u) ++ l2) :=
        intercalate_cons_cons s a c (u ++ l2)
      rw [e1, ih (by simp), intercalate_cons_cons s a c u]
      simp [String.append_assoc]

theorem intercalate_join_nonempty (ls : List (List String))
    (h : ∀ l ∈ ls, ∀ x ∈ l, x ≠ "") :
    String.intercalate "\n"
      ((ls.map (String.intercalate "\n")).filter fun t => t ≠ "") =
    String.intercalate "\n" ls.flatten := by
  induction ls with
  | nil => rfl
  | cons l rest ih =>
    have hrest : ∀ l' ∈ rest, ∀ x ∈ l', x ≠ "" :=
      fun l' hl' => h l' (by simp [hl'])
    have hfil : ((rest.map (String.intercalate "\n")).filter fun t => t ≠ "") = []
        ↔ rest.flatten = [] := by
      rw [List.filter_eq_nil_iff, List.flatten_eq_nil_iff]
      constructor
      · intro hall l' hl'
        by_contra hne
        exact hall (String.intercalate "\n" l') (List.mem_map_of_mem _ hl')
          (by simpa using intercalate_ne_empty l' hne (hrest l' hl'))
      · intro hall x hx
        obtain ⟨l', hl', rfl⟩ := List.mem_map.mp hx
        rw [hall l' hl']
        decide
    cases l with
    | nil =>
      simp only [List.map_cons, List.flatten_cons, List.nil_append]
      rw [show String.intercalate "\n" ([] : List String) = "" from rfl,
        List.filter_cons_of_neg (by simp)]
      exact ih hrest
    | cons a t =>
      have hne : String.intercalate "\n" (a :: t) ≠ "" :=
        intercalate_ne_empty _ (by simp) (h _ (by simp))
      simp only [List.map_cons, List.flatten_cons]
      rw [List.filter_cons_of_pos (by simpa using hne)]
      by_cases hjoin : rest.flatten = []
      · rw [hfil.mpr hjoin, hjoin, List.append_nil]
        rfl
      · have hfne : ((rest.map (String.intercalate "\n")).filter fun t => t ≠ "") ≠ [] := by
          intro hc
          exact hjoin (hfil.mp hc)
        rw [show (String.intercalate "\n" (a :: t)) ::
              ((rest.map (String.intercalate "\n")).filter fun t => t ≠ "") =
            [String.intercalate "\n" (a :: t)] ++
              ((rest.map (String.intercalate "\n")).filter fun t => t ≠ "") from rfl]
        rw [intercalate_append_strings _ _ _ (by simp) hfne]
        rw [intercalate_append_strings _ _ _ (by simp) hjoin]
        rw [ih hrest]
        rfl

/-! Helper lemmas about the text assembly of the PDF endpoint. -/

theorem filter_map_text (items : List OcrItem) :
    ((items.filter fun it => it.text ≠ "").map fun it => it.text) = ntexts items := by
  induction items with
  | nil => rfl
  | cons a t ih =>
    simp only [ntexts] at ih
    by_cases h : a.text = "" <;> simp only [ntexts, List.map_cons, List.filter_cons] <;>
      simp [h] <;> simpa using ih

theorem joinTexts_eq_ntexts (items : List OcrItem) :
    joinTexts items = String.intercalate "\n" (ntexts items) := by
  rw [joinTexts, filter_map_text]

theorem ntexts_append (l1 l2 : List OcrItem) :
    ntexts (l1 ++ l2) = ntexts l1 ++ ntexts l2 := by
  simp [ntexts]

theorem map_text_stampPage (idx : Nat) (l : List OcrItem) :
    (stampPage idx l).map (fun it => it.text) = l.map fun it => it.text := by
  induction l with
  | nil => rfl
  | cons a t ih =>
    simp only [stampPage, List.map_cons] at *
    rw [ih]

theorem ntexts_stampPage (idx : Nat) (l : List OcrItem) :
    ntexts (stampPage idx l) = ntexts l := by
  rw [ntexts, map_text_stampPage]
  rfl

theorem ntexts_pdf_all_items_aux (minConf : Rat) (pagesD : List PageData) (idx : Nat) :
    ntexts (pdf_all_items_aux minConf idx pagesD) =
      (pagesD.map fun pd => ntexts (processPage pd minConf)).flatten := by
  induction pagesD generalizing idx with
  | nil => rfl
  | cons pd rest ih =>
    simp only [pdf_all_items_aux, List.map_cons, List.flatten_cons, ntexts_append,
      ntexts_stampPage]
    rw [ih]

/-! Claim C1. -/

/-- Claim C1, counterexample: with two detected regions of which the first
is dropped by the confidence filter (score 0.2 < min_conf 0.5), the only
surviving item carries `boxId = 2`, not the consecutive `1..N` (here
`[1]`) the claim requires: `box_id` is the detection index assigned by
`enumerate(rois_info, start=1)` before filtering, so dropped regions leave
gaps. -/
theorem c1_boxIds_have_gaps :
    (recognize_rois oracleAB 100 100 roisAB qHalf).map (fun it => it.boxId) = [2] ∧
    ¬ ((recognize_rois oracleAB 100 100 roisAB qHalf).map (fun it => it.boxId) =
       List.range' 1 (recognize_rois oracleAB 100 100 roisAB qHalf).length) := by
  decide

/-- Claim C1, amended: the `boxId` values of one page's final output are
strictly increasing and each equals one plus the 0-based detection-order
index of its region (the index `enumerate(rois_info, start=1)` assigns
before any region is skipped or filtered); they lie in `1..R` for `R`
detected regions, but are consecutive `1..N` only when no region is
dropped. -/
theorem c1_boxId_is_detection_index (oracle : RecOracle) (wImg hImg : Int)
    (rois : List DetItem) (minConf : Rat) :
    (recognize_rois oracle wImg hImg rois minConf).Pairwise
      (fun a b => a.boxId < b.boxId) ∧
    ∀ it ∈ recognize_rois oracle wImg hImg rois minConf,
      1 ≤ it.boxId ∧ it.boxId ≤ rois.length ∧
      ∃ k, ∃ hk : k < rois.length, it.boxId = k + 1 ∧
        processRegion oracle wImg hImg minConf (k + 1)
          (rois.get ⟨k, hk⟩) = some it := by
  refine ⟨recognize_rois_aux_pairwise oracle wImg hImg minConf rois 1, ?_⟩
  intro it hmem
  obtain ⟨k, hk, hpk⟩ :=
    (mem_recognize_rois_aux oracle wImg hImg minConf rois 1 it).mp hmem
  have hid := (processRegion_some oracle wImg hImg minConf (1 + k) _ it hpk).1
  refine ⟨by omega, by omega, k, hk, by omega, ?_⟩
  rw [show k + 1 = 1 + k by omega]
  exact hpk

/-- Claim C1, witness: the amended theorem applied to the concrete run of
`c1_boxIds_have_gaps`, at its surviving item. -/
theorem c1_boxId_is_detection_index_witness :
    1 ≤ itemAB.boxId ∧ itemAB.boxId ≤ roisAB.length ∧
    ∃ k, ∃ hk : k < roisAB.length, itemAB.boxId = k + 1 ∧
      processRegion oracleAB 100 100 qHalf (k + 1) (roisAB.get ⟨k, hk⟩) = some itemAB :=
  (c1_boxId_is_detection_index oracleAB 100 100 roisAB qHalf).2 itemAB (by decide)

/-! Claim C2. -/

/-- Claim C2, counterexample: two surviving regions with boxes
`(y1=10, x1=5)` and `(y1=10, x1=50)`, detected in that order, are emitted
as `[x1=5, x1=50]` — not `[x1=50, x1=5]` as the claimed
top-edge-ascending/left-edge-descending sort requires for this tie. -/
theorem c2_not_sorted_right_to_left :
    (recognize_rois oracleAB 100 100 roisAB 0).map (fun it => it.bbox.x1) = [5, 50] ∧
    (recognize_rois oracleAB 100 100 roisAB 0).map (fun it => it.bbox.x1) ≠ [50, 5] := by
  decide

/-- Claim C2, amended: no reading-order sort exists in the code; the
surviving items are emitted exactly in detection order — the output is the
in-order `filterMap` of the per-region step over the 1-indexed region
list. -/
theorem c2_emitted_in_detection_order (oracle : RecOracle) (wImg hImg : Int)
    (rois : List DetItem) (minConf : Rat) :
    recognize_rois oracle wImg hImg rois minConf =
      (rois.enumFrom 1).filterMap fun p =>
        processRegion oracle wImg hImg minConf p.1 p.2 := by
  show recognize_rois_aux oracle wImg hImg minConf 1 rois = _
  generalize 1 = i
  induction rois generalizing i with
  | nil => simp [recognize_rois_aux]
  | cons det rest ih =>
    unfold recognize_rois_aux
    rw [List.enumFrom_cons, List.filterMap_cons]
    cases hp : processRegion oracle wImg hImg minConf i det with
    | some o => simp [hp, ih (i + 1)]
    | none => simp [hp, ih (i + 1)]

/-! Claim C3. -/

/-- Claim C3, counterexample: for a region recognized as `"ا لكتاب"` with
confidence 0.9 at `min_conf = 0.5`, the emitted text is the raw string
`"ا لكتاب"`, not the normalized `"الكتاب"` the claim requires — no
TextNormalizer exists in the code. -/
theorem c3_text_not_normalized :
    (recognize_rois oracleC3 100 100 roisC3 qHalf).map (fun it => it.text) =
      ["ا لكتاب"] ∧
    "ا لكتاب" ≠ "الكتاب" := by
  decide

/-- Claim C3, amended: in the same scenario the pipeline outputs exactly
one item, with `boxId = 1`, confidence 0.9, and text equal to the raw
recognized string `"ا لكتاب"` unchanged (no normalization is applied). -/
theorem c3_raw_text_scenario :
    recognize_rois oracleC3 100 100 roisC3 qHalf =
      [{ boxId := 1, text := "ا لكتاب", confidence := qNineTenths,
         bbox := ⟨0, 0, 10, 10⟩, polygon := polyC3, page := none }] := by
  decide

/-! Claim C4. -/

/-- Claim C4 (confirmed): no output item of `_recognize_rois` has
confidence below `min_conf`, and a recognized region (one whose clamped
box survives the geometric check, so the recognizer is reached) yields an
item — identified by its `boxId` — iff its recognized confidence is
`≥ min_conf`. -/
theorem c4_confidence_filter_iff (oracle : RecOracle) (wImg hImg : Int)
    (rois : List DetItem) (minConf : Rat) :
    (∀ it ∈ recognize_rois oracle wImg hImg rois minConf,
      minConf ≤ it.confidence) ∧
    ∀ k, ∀ hk : k < rois.length,
      (clampBox wImg hImg (rois.get ⟨k, hk⟩).bbox).x1 <
        (clampBox wImg hImg (rois.get ⟨k, hk⟩).bbox).x2 →
      (clampBox wImg hImg (rois.get ⟨k, hk⟩).bbox).y1 <
        (clampBox wImg hImg (rois.get ⟨k, hk⟩).bbox).y2 →
      ((∃ it ∈ recognize_rois oracle wImg hImg rois minConf, it.boxId = k + 1) ↔
        minConf ≤ (recognizeRoi (oracle (clampBox wImg hImg
          (rois.get ⟨k, hk⟩).bbox))).score) := by
  constructor
  · intro it hmem
    obtain ⟨k, hk, hpk⟩ := (mem_recognize_rois_aux oracle wImg hImg minConf rois 1 it).mp hmem
    exact (processRegion_some oracle wImg hImg minConf (1 + k) _ it hpk).2.2.2.2.2.2.1
  · intro k hk hx hy
    constructor
    · rintro ⟨it, hmem, hid⟩
      obtain ⟨j, hj, hpj⟩ := (mem_recognize_rois_aux oracle wImg hImg minConf rois 1 it).mp hmem
      have h := processRegion_some oracle wImg hImg minConf (1 + j) _ it hpj
      have hjk : j = k := by omega
      subst hjk
      rw [← h.2.1, ← h.2.2.2.2.2.1]
      exact h.2.2.2.2.2.2.1
    · intro hscore
      set b := clampBox wImg hImg (rois.get ⟨k, hk⟩).bbox with hbdef
      refine ⟨{ boxId := k + 1, text := (recognizeRoi (oracle b)).text,
                confidence := (recognizeRoi (oracle b)).score,
                bbox := b, polygon := (rois.get ⟨k, hk⟩).polygon, page := none },
              ?_, rfl⟩
      apply (mem_recognize_rois_aux oracle wImg hImg minConf rois 1 _).mpr
      refine ⟨k, hk, ?_⟩
      simp only [processRegion]
      rw [← hbdef]
      rw [if_neg (by omega), if_neg ?side, if_pos ?score]
      · rw [show 1 + k = k + 1 by omega]
      case side =>
        have h3 : (0:Int) < 3 := by norm_num
        have := mul_pos (mul_pos (by omega : (0:Int) < b.y2 - b.y1)
          (by omega : (0:Int) < b.x2 - b.x1)) h3
        omega
      case score => exact hscore

/-- Claim C4, witness: the iff applied to the second region of `roisAB`
at `min_conf = 0.5` (recognized confidence 0.9). -/
theorem c4_confidence_filter_iff_witness :
    ∃ it ∈ recognize_rois oracleAB 100 100 roisAB qHalf, it.boxId = 1 + 1 :=
  ((c4_confidence_filter_iff oracleAB 100 100 roisAB qHalf).2 1
    (by decide) (by decide) (by decide)).mpr (by decide)

/-! Claim C5. -/

/-- Claim C5 (confirmed): every item of the final output over detector
output satisfies `0 ≤ x1 < x2 ≤ width` and `0 ≤ y1 < y2 ≤ height`, and a
candidate whose clamped rectangle violates `x2 > x1 ∧ y2 > y1` is silently
discarded by the per-region step (never emitted). -/
theorem c5_bbox_within_image_bounds (detResults : List (List (List Point)))
    (oracle : RecOracle) (wImg hImg : Int) (minConf : Rat) :
    (∀ it ∈ recognize_rois oracle wImg hImg
        (detect_polys_bboxes detResults wImg hImg) minConf,
      0 ≤ it.bbox.x1 ∧ it.bbox.x1 < it.bbox.x2 ∧ it.bbox.x2 ≤ wImg ∧
      0 ≤ it.bbox.y1 ∧ it.bbox.y1 < it.bbox.y2 ∧ it.bbox.y2 ≤ hImg) ∧
    ∀ (i : Nat) (det : DetItem),
      ((clampBox wImg hImg det.bbox).x2 ≤ (clampBox wImg hImg det.bbox).x1 ∨
       (clampBox wImg hImg det.bbox).y2 ≤ (clampBox wImg hImg det.bbox).y1) →
      processRegion oracle wImg hImg minConf i det = none := by
  constructor
  · intro it hmem
    obtain ⟨k, hk, hpk⟩ := (mem_recognize_rois_aux oracle wImg hImg minConf _ 1 it).mp hmem
    have h := processRegion_some oracle wImg hImg minConf (1 + k) _ it hpk
    obtain ⟨-, hbb, hx, hy, -⟩ := h
    have hb := clampBox_bounds wImg hImg _ (hbb ▸ hx) (hbb ▸ hy)
    rw [hbb]
    rw [hbb] at hx hy
    exact ⟨hb.1, hx, hb.2.1, hb.2.2.1, hy, hb.2.2.2⟩
  · intro i det hbad
    simp only [processRegion]
    rw [if_pos]
    omega

/-- Claim C5, witness: the bounds applied to the item produced from the
detector output `[[sqPoly 5 10 19 19]]` on a 100×100 image. -/
theorem c5_bbox_within_image_bounds_witness :
    0 ≤ itemC3det.bbox.x1 ∧ itemC3det.bbox.x1 < itemC3det.bbox.x2 ∧
    itemC3det.bbox.x2 ≤ 100 ∧ 0 ≤ itemC3det.bbox.y1 ∧
    itemC3det.bbox.y1 < itemC3det.bbox.y2 ∧ itemC3det.bbox.y2 ≤ 100 :=
  (c5_bbox_within_image_bounds [[sqPoly 5 10 19 19]] oracleC3 100 100 0).1
    itemC3det (by decide)

/-! Claim C6. -/

/-- Claim C6, counterexample: a region recognized as `"Xبً"` (a Latin
letter outside {Arabic block, digits, whitespace} and a tashkeel mark
U+064B) is emitted verbatim, so the output violates both character
restrictions the claim states — no TextNormalizer exists in the code. -/
theorem c6_disallowed_chars_pass_through :
    ¬ (∀ it ∈ recognize_rois oracleC6 100 100 roisC6 0,
        ∀ c ∈ it.text.data, specTashkeel c = false ∧ specAllowedChar c = true) := by
  decide

/-- Claim C6, amended: the emitted item text (and confidence) is exactly
the raw first result the recognition oracle returns for the item's
clamped box; no character is stripped or altered. -/
theorem c6_text_passthrough (oracle : RecOracle) (wImg hImg : Int)
    (rois : List DetItem) (minConf : Rat) :
    ∀ it ∈ recognize_rois oracle wImg hImg rois minConf,
      it.text = (recognizeRoi (oracle it.bbox)).text ∧
      it.confidence = (recognizeRoi (oracle it.bbox)).score := by
  intro it hmem
  obtain ⟨k, hk, hpk⟩ :=
    (mem_recognize_rois_aux oracle wImg hImg minConf rois 1 it).mp hmem
  have h := processRegion_some oracle wImg hImg minConf (1 + k) _ it hpk
  exact ⟨h.2.2.2.2.1, h.2.2.2.2.2.1⟩

/-- Claim C6, witness: the passthrough applied to the item emitted for
`roisC6` under `oracleC6`. -/
theorem c6_text_passthrough_witness :
    itemC6.text = (recognizeRoi (oracleC6 itemC6.bbox)).text ∧
    itemC6.confidence = (recognizeRoi (oracleC6 itemC6.bbox)).score :=
  c6_text_passthrough oracleC6 100 100 roisC6 0 itemC6 (by decide)

/-! Claim C7. -/

/-- Claim C7 (confirmed): a raised recognizer invocation or an empty
result sequence degrades to `{text: "", confidence: 0.0}`; the per-region
step then either keeps that degraded item or drops it on the confidence
threshold, never erroring; and the loop always continues with the
remaining regions (the output for `det :: rest` is the optional item for
`det` followed by the untouched processing of `rest`). -/
theorem c7_recognition_failure_degrades (oracle : RecOracle) (wImg hImg : Int)
    (minConf : Rat) :
    (recognizeRoi .failure = { text := "", score := 0 } ∧
     recognizeRoi (.results []) = { text := "", score := 0 }) ∧
    (∀ (i : Nat) (det : DetItem),
      recFails (oracle (clampBox wImg hImg det.bbox)) →
      processRegion oracle wImg hImg minConf i det = none ∨
      ∃ it, processRegion oracle wImg hImg minConf i det = some it ∧
        it.text = "" ∧ it.confidence = 0) ∧
    ∀ (i : Nat) (det : DetItem) (rest : List DetItem),
      recognize_rois_aux oracle wImg hImg minConf i (det :: rest) =
        (processRegion oracle wImg hImg minConf i det).toList ++
          recognize_rois_aux oracle wImg hImg minConf (i + 1) rest := by
  refine ⟨⟨rfl, rfl⟩, ?_, ?_⟩
  · intro i det hfail
    have hrec : recognizeRoi (oracle (clampBox wImg hImg det.bbox)) =
        { text := "", score := 0 } := by
      rcases hfail with h | h <;> rw [h] <;> rfl
    simp only [processRegion, hrec]
    split_ifs with h1 h2 h3
    · exact Or.inl rfl
    · exact Or.inl rfl
    · exact Or.inr ⟨_, rfl, rfl, rfl⟩
    · exact Or.inl rfl
  · intro i det rest
    cases hp : processRegion oracle wImg hImg minConf i det with
    | some o =>
      conv_lhs => rw [recognize_rois_aux]
      rw [hp]
      rfl
    | none =>
      conv_lhs => rw [recognize_rois_aux]
      rw [hp]
      rfl

/-- Claim C7, witness: the degradation alternative applied to an
always-raising oracle on a concrete region. -/
theorem c7_recognition_failure_degrades_witness :
    processRegion oracleFail 100 100 0 1 detF = none ∨
    ∃ it, processRegion oracleFail 100 100 0 1 detF = some it ∧
      it.text = "" ∧ it.confidence = 0 :=
  (c7_recognition_failure_degrades oracleFail 100 100 0).2.1 1 detF (Or.inl rfl)

/-! Claim C8. -/

/-- Claim C8, counterexample: on an image whose detection returns zero
polygons, the single-image OCR response carries no `total_boxes` field at
all (its fields are pages/dpi/det_model/rec_model/items/text), so it does
not return `total_boxes = 0` as claimed. -/
theorem c8_no_total_boxes_field :
    (paddle_ocr_image_response [] oracleC3 100 100 0).lookup "total_boxes" = none ∧
    (paddle_ocr_image_response [] oracleC3 100 100 0).lookup "total_boxes" ≠
      some (.vInt 0) := by
  decide

/-- Claim C8, amended: when the detector yields zero polygons, the
`paddle_ocr_image` response has `items = []` and `text = ""` but no
`total_boxes` field; the plain `POST /ocr` endpoint (`base_ocr_image`)
returns only `text = ""`, with neither an `items` nor a `total_boxes`
field. -/
theorem c8_empty_detection_response (detResults : List (List (List Point)))
    (oracle : RecOracle) (wImg hImg : Int) (minConf : Rat)
    (hempty : ∀ boxes ∈ detResults, boxes = []) :
    (paddle_ocr_image_response detResults oracle wImg hImg minConf).lookup "items" =
      some (.vItems []) ∧
    (paddle_ocr_image_response detResults oracle wImg hImg minConf).lookup "text" =
      some (.vStr "") ∧
    (paddle_ocr_image_response detResults oracle wImg hImg minConf).lookup
      "total_boxes" = none ∧
    (base_ocr_image_response detResults oracle wImg hImg).lookup "text" =
      some (.vStr "") ∧
    (base_ocr_image_response detResults oracle wImg hImg).lookup "items" = none := by
  have hdet : detect_polys_bboxes detResults wImg hImg = [] := by
    simp only [detect_polys_bboxes, List.flatMap_eq_nil_iff]
    intro boxes hmem
    simp [hempty boxes hmem]
  simp [paddle_ocr_image_response, base_ocr_image_response, hdet, recognize_rois,
    recognize_rois_aux, joinTexts, List.lookup, String.intercalate]

/-- Claim C8, witness: the amended response facts at a concrete empty
detection. -/
theorem c8_empty_detection_response_witness :
    (paddle_ocr_image_response [] oracleC3 100 100 0).lookup "items" =
      some (.vItems []) ∧
    (paddle_ocr_image_response [] oracleC3 100 100 0).lookup "text" =
      some (.vStr "") ∧
    (paddle_ocr_image_response [] oracleC3 100 100 0).lookup "total_boxes" = none ∧
    (base_ocr_image_response [] oracleC3 100 100).lookup "text" = some (.vStr "") ∧
    (base_ocr_image_response [] oracleC3 100 100).lookup "items" = none :=
  c8_empty_detection_response [] oracleC3 100 100 0 (by simp)

/-! Claim C9. -/

/-- Claim C9, counterexample: a two-page document whose pages' item texts
are `"a"` and `"b"` yields the document text `"a\nb"` — the per-page texts
are joined by a single newline, not separated by a blank line (and no page
marker is inserted) as the claim requires. -/
theorem c9_no_blank_line_separator :
    paddle_ocr_pdf_text [pageA, pageB] 0 = "a\nb" ∧
    paddle_ocr_pdf_text [pageA, pageB] 0 ≠ "a\n\nb" := by
  decide

/-- Claim C9, amended: each page's text is the newline-join, in `boxId`
order (the emission order), of that page's non-empty item texts, and the
whole-document text is the concatenation of the non-empty per-page texts
in page order separated by a single newline — not by a blank line, and
with no page marker. -/
theorem c9_document_text_newline_join (pagesD : List PageData) (minConf : Rat) :
    paddle_ocr_pdf_text pagesD minConf =
      String.intercalate "\n"
        ((pagesD.map fun pd => specPageText pd minConf).filter fun t => t ≠ "") := by
  rw [paddle_ocr_pdf_text, joinTexts_eq_ntexts, pdf_all_items, ntexts_pdf_all_items_aux]
  have hmap : (pagesD.map fun pd => specPageText pd minConf) =
      ((pagesD.map fun pd => ntexts (processPage pd minConf)).map
        (String.intercalate "\n")) := by
    rw [List.map_map]
    rfl
  rw [hmap]
  refine (intercalate_join_nonempty _ ?_).symm
  intro l hl x hx
  obtain ⟨pd, hpd, rfl⟩ := List.mem_map.mp hl
  simpa using (List.mem_filter.mp hx).2

/-! Claim C10. -/

/-- Claim C10 (confirmed): a region whose recognition yields empty text
with a confidence passing the threshold still appears as an item (with
text `""` and its clamped bbox) in the output list, while the assembled
text string skips empty texts — removing the empty-text items from the
list leaves the joined text unchanged. -/
theorem c10_empty_text_item_kept (oracle : RecOracle) (wImg hImg : Int)
    (rois : List DetItem) (minConf : Rat) (k : Nat) (hk : k < rois.length)
    (hx : (clampBox wImg hImg (rois.get ⟨k, hk⟩).bbox).x1 <
          (clampBox wImg hImg (rois.get ⟨k, hk⟩).bbox).x2)
    (hy : (clampBox wImg hImg (rois.get ⟨k, hk⟩).bbox).y1 <
          (clampBox wImg hImg (rois.get ⟨k, hk⟩).bbox).y2)
    (htext : (recognizeRoi (oracle (clampBox wImg hImg
      (rois.get ⟨k, hk⟩).bbox))).text = "")
    (hpass : minConf ≤ (recognizeRoi (oracle (clampBox wImg hImg
      (rois.get ⟨k, hk⟩).bbox))).score) :
    (∃ it ∈ recognize_rois oracle wImg hImg rois minConf,
      it.boxId = k + 1 ∧ it.text = "" ∧
      it.bbox = clampBox wImg hImg (rois.get ⟨k, hk⟩).bbox) ∧
    joinTexts (recognize_rois oracle wImg hImg rois minConf) =
      joinTexts ((recognize_rois oracle wImg hImg rois minConf).filter
        fun it => it.text ≠ "") := by
  refine ⟨?_, joinTexts_filter _⟩
  set b := clampBox wImg hImg (rois.get ⟨k, hk⟩).bbox with hbdef
  refine ⟨{ boxId := k + 1, text := (recognizeRoi (oracle b)).text,
            confidence := (recognizeRoi (oracle b)).score,
            bbox := b, polygon := (rois.get ⟨k, hk⟩).polygon, page := none },
          ?_, rfl, htext, rfl⟩
  apply (mem_recognize_rois_aux oracle wImg hImg minConf rois 1 _).mpr
  refine ⟨k, hk, ?_⟩
  simp only [processRegion]
  rw [← hbdef]
  rw [if_neg (by omega), if_neg ?side, if_pos hpass]
  · rw [show 1 + k = k + 1 by omega]
  case side =>
    have h3 : (0:Int) < 3 := by norm_num
    have := mul_pos (mul_pos (by omega : (0:Int) < b.y2 - b.y1)
      (by omega : (0:Int) < b.x2 - b.x1)) h3
    omega

/-- Claim C10, witness: the retention applied to a region recognized as
empty text with confidence 0.5 at `min_conf = 0`. -/
theorem c10_empty_text_item_kept_witness :
    (∃ it ∈ recognize_rois oracleEmptyText 100 100 roisC6 0,
      it.boxId = 0 + 1 ∧ it.text = "" ∧
      it.bbox = clampBox 100 100 (roisC6.get ⟨0, by decide⟩).bbox) ∧
    joinTexts (recognize_rois oracleEmptyText 100 100 roisC6 0) =
      joinTexts ((recognize_rois oracleEmptyText 100 100 roisC6 0).filter
        fun it => it.text ≠ "") :=
  c10_empty_text_item_kept oracleEmptyText 100 100 roisC6 0 0 (by decide) (by decide)
    (by decide) (by decide) (by decide)
